import Mathlib

/-!
Verification development for `vite-plugin-unlock`.

This file shallowly embeds the override-index and incremental-invalidation
engine of the plugin (scanner, resolver, conflict detector, watcher) as
executable Lean definitions, and proves the specification's claims about it.

Strings are modelled by Lean `String`; JavaScript string primitives
(`startsWith`, `endsWith`, `includes`, `split`, anchored regex replacement)
are embedded as recursive functions over the character list `String.data`.
The filesystem is modelled as a tree of named entries; `fs.existsSync` and
the hosting dev-server's module graph are passed in as explicit data.
-/

namespace Unlock

/-- Character-level test that `p` occurs at the start of `s` (JS `startsWith`). -/
def listLeads : List Char → List Char → Bool
  | [], _ => true
  | _ :: _, [] => false
  | a :: as, b :: bs => a == b && listLeads as bs

/-- Character-level test that `pat` occurs somewhere inside `s` (JS `includes`). -/
def listHasSeg (pat : List Char) : List Char → Bool
  | [] => listLeads pat []
  | c :: cs => listLeads pat (c :: cs) || listHasSeg pat cs

/-- JS `s.startsWith(p)`. -/
def jsStartsWith (s p : String) : Bool := listLeads p.data s.data

/-- JS `s.endsWith(p)`. -/
def jsEndsWith (s p : String) : Bool := listLeads p.data.reverse s.data.reverse

/-- JS `s.includes(p)`. -/
def jsIncludes (s p : String) : Bool := listHasSeg p.data s.data

/-- Drop a known suffix (used for anchored regex replacement at the end). -/
def dropSuffixStr (s suf : String) : String :=
  ⟨(s.data.reverse.drop suf.data.length).reverse⟩

/-- Embedding of `normalizePath` from utils: replace every backslash with a forward slash. -/
def normalizePath (p : String) : String :=
  ⟨p.data.map (fun c => if c == '\\' then '/' else c)⟩

/-- Split a character list at every occurrence of the separator `c`
(JS `String.prototype.split` with a single-character separator). -/
def splitChar (c : Char) : List Char → List (List Char)
  | [] => [[]]
  | a :: as =>
    match splitChar c as with
    | [] => [[]]
    | r :: rs => if a == c then [] :: r :: rs else (a :: r) :: rs

/-- JS `s.split("/")` as a list of strings. -/
def splitSlash (s : String) : List String :=
  (splitChar '/' s.data).map (fun l => ⟨l⟩)

/-- Embedding of `path.split("/").filter(Boolean)`: the non-empty slash-separated parts. -/
def pathParts (s : String) : List String :=
  (splitSlash s).filter (fun p => p ≠ "")

/-- Join path segments with `/` (JS `Array.prototype.join("/")`). -/
def joinSegs : List String → String
  | [] => ""
  | [s] => s
  | s :: rest => s ++ "/" ++ joinSegs rest

/-- node `path.basename` (posix, for the paths the plugin feeds it):
the last non-empty slash-separated part, `""` when there is none. -/
def basenameOf (p : String) : String := (pathParts p).getLastD ""

/-- node `path.dirname` (posix): everything before the last slash. -/
def jsDirname (s : String) : String :=
  match (splitChar '/' s.data).map (fun l => (⟨l⟩ : String)) with
  | [] => "."
  | [_] => "."
  | ps =>
    let d := joinSegs ps.dropLast
    if d = "" then "/" else d

/-- node `path.extname`: the final `.ext` part of the basename
(empty when the only dot is the leading one, as in dotfiles). -/
def extnameOf (s : String) : String :=
  let l := ((pathParts s).getLastD "").data
  let rev := l.reverse
  let pre := rev.takeWhile (fun c => c ≠ '.')
  match rev.drop pre.length with
  | '.' :: rest => if rest.isEmpty then "" else ⟨'.' :: pre.reverse⟩
  | _ => ""

/-- The extensions recognized by `stripExtension`'s anchored regex
`\.(tsx?|jsx?|mts|mjs|vue|svelte)$`. -/
def STRIP_EXTS : List String :=
  [".tsx", ".ts", ".jsx", ".js", ".mts", ".mjs", ".vue", ".svelte"]

/-- Embedding of `stripExtension` from utils: remove one trailing recognized extension. -/
def stripExtension (filename : String) : String :=
  match STRIP_EXTS.find? (fun e => jsEndsWith filename e) with
  | some e => dropSuffixStr filename e
  | none => filename

/-- Length of the common leading run of equal segments. -/
def commonLen : List String → List String → Nat
  | a :: as, b :: bs => if a = b then commonLen as bs + 1 else 0
  | _, _ => 0

/-- node `path.relative` for the absolute, already-resolved paths the plugin
compares: drop the common segment run, then climb with `..` segments. -/
def jsRelative (fromP toP : String) : String :=
  let f := pathParts fromP
  let t := pathParts toP
  let k := commonLen f t
  joinSegs (((f.drop k).map (fun _ => "..")) ++ t.drop k)

/-- Embedding of `resolvedId.replace(/\?.*$/, "")`: drop a query string. -/
def stripQuery (s : String) : String :=
  ⟨s.data.takeWhile (fun c => c ≠ '?')⟩

/-! ### JS `Map` model

A JS `Map` is an insertion-ordered association list: `set` overwrites in
place when the key is present and appends otherwise; `get`/`has` find the
(unique) entry for a key. -/

/-- JS `map.get(k)`. -/
def mapGet {V : Type} (m : List (String × V)) (k : String) : Option V :=
  (m.find? (fun p => p.1 = k)).map (fun p => p.2)

/-- JS `map.has(k)`. -/
def mapHas {V : Type} (m : List (String × V)) (k : String) : Bool :=
  m.any (fun p => p.1 = k)

/-- JS `map.set(k, v)`. -/
def mapSet {V : Type} (m : List (String × V)) (k : String) (v : V) :
    List (String × V) :=
  if mapHas m k then m.map (fun p => if p.1 = k then (k, v) else p)
  else m ++ [(k, v)]

/-- JS `[...a.keys(), ...b.keys()]` deduplicated in first-occurrence order
(`new Set([...])` iteration order). -/
def dedupKeys (l : List String) : List String := l.eraseDups

/-! ### Data model (types.ts) -/

/-- Embedding of `MatchStrategy` from types.ts. -/
inductive MatchStrategy | basename | path
deriving DecidableEq, Repr

/-- Embedding of `ConflictStrategy` from types.ts. -/
inductive ConflictStrategy | error | warn | first
deriving DecidableEq, Repr

/-- Embedding of `entryRedirect` record from types.ts. -/
structure EntryRedirect where
  fromPath : String
  toPath : String
deriving DecidableEq, Repr

/-- Embedding of `ResolvedTarget` from types.ts (the fields the core engine reads). -/
structure ResolvedTarget where
  package : String
  aliasStr : String
  srcDir : String
  srcPath : String
  entryRedirect : Option EntryRedirect := none
deriving DecidableEq, Repr

/-- Embedding of `ResolvedOptions` from types.ts (the fields the core engine reads;
`extensionSet` membership is `∈ extensions`). -/
structure ResolvedOptions where
  targets : List ResolvedTarget
  overrideDirs : List String
  matchStrategy : MatchStrategy
  onConflict : ConflictStrategy
  extensions : List String
deriving Repr

/-- An override map: key → absolute file path (`OverrideMap` in types.ts). -/
abbrev OvMap := List (String × String)

/-- Embedding of `NamespacedOverrideMap` in types.ts: package name → override map. -/
abbrev NsMap := List (String × OvMap)

/-- One entry of the combined target file index built by `scanAllTargets`. -/
structure TargetFile where
  target : ResolvedTarget
  filePath : String
deriving DecidableEq, Repr

/-- Embedding of `ResolverState` from resolver.ts. -/
structure ResolverState where
  flatOverrides : OvMap
  namespacedOverrides : NsMap
  targetFiles : List (String × TargetFile)
deriving Repr

/-! ### Filesystem model

A directory listing is a list of named entries; subdirectory contents are
nested in the tree.  A root lookup function plays `fs.readdirSync` at the
directories the plugin scans (`none` = missing directory, making
`collectFiles` return nothing, as its `try/catch` does). -/

/-- A filesystem entry as seen by `fs.readdirSync(..., { withFileTypes: true })`. -/
inductive FSEntry
  | file (name : String)
  | dir (name : String) (children : List FSEntry)
deriving Repr

/-- Directory listings for the roots the plugin scans. -/
abbrev FSRoots := String → Option (List FSEntry)

/-- Embedding of `MAX_SCAN_DEPTH` from constants.ts. -/
def MAX_SCAN_DEPTH : Nat := 20

/-- Recursion core of `collectFiles`, structurally recursive on the
remaining depth budget (`MAX_SCAN_DEPTH + 1 - depth`): budget 0 plays the
source's `depth > MAX_SCAN_DEPTH` early return. -/
def collectFilesAux (extSet : List String) : Nat → String → List FSEntry → List String
  | 0, _, _ => []
  | budget + 1, dir, entries =>
    entries.flatMap (fun e =>
      match e with
      | .file name =>
        if jsStartsWith name "." || name = "node_modules" then []
        else if extSet.contains (extnameOf name) then [dir ++ "/" ++ name]
        else []
      | .dir name children =>
        if jsStartsWith name "." || name = "node_modules" then []
        else collectFilesAux extSet budget (dir ++ "/" ++ name) children)

/-- Embedding of `collectFiles` from scanner.ts: recursively collect files whose extension
is allowed, skipping entries named `node_modules` or starting with a dot,
truncating subtrees below `MAX_SCAN_DEPTH` (the source checks
`depth > MAX_SCAN_DEPTH` on entry to every recursive call, which the budget
encoding performs by running out of budget at the same depth). -/
def collectFiles (extSet : List String) (depth : Nat) (dir : String)
    (entries : List FSEntry) : List String :=
  collectFilesAux extSet (MAX_SCAN_DEPTH + 1 - depth) dir entries

/-- Embedding of `getOverrideKey` from scanner.ts. -/
def getOverrideKey (filePath baseDir : String) (strat : MatchStrategy) :
    Option String :=
  let normalized := normalizePath filePath
  let parts := pathParts normalized
  if parts = [] then none
  else
    let fileName := parts.getLastD ""
    let baseName := stripExtension fileName
    if baseName = "" then none
    else
      match strat with
      | .path =>
        let normalizedBase := normalizePath baseDir
        let relative := normalizePath (jsRelative normalizedBase normalized)
        some (stripExtension relative)
      | .basename =>
        if baseName = "index" then
          if parts.length ≥ 2 then
            let parent := parts.getD (parts.length - 2) ""
            if parent = "" then none else some parent
          else none
        else some baseName

/-- Embedding of `scanTarget` from scanner.ts: index one target package's sources. -/
def scanTarget (target : ResolvedTarget) (opts : ResolvedOptions)
    (roots : FSRoots) : OvMap :=
  (collectFiles opts.extensions 0 target.srcPath
      ((roots target.srcPath).getD [])).foldl
    (fun m f =>
      match getOverrideKey f target.srcPath opts.matchStrategy with
      | some key => mapSet m key f
      | none => m) []

/-- Embedding of `scanAllTargets` from scanner.ts: fold every target's index into one
combined map (`Map.set` overwrites, so a later target's file replaces an
earlier one under the same key). -/
def scanAllTargets (opts : ResolvedOptions) (roots : FSRoots) :
    List (String × TargetFile) :=
  opts.targets.foldl
    (fun combined target =>
      (scanTarget target opts roots).foldl
        (fun c kv => mapSet c kv.1 ⟨target, kv.2⟩) combined) []

/-- Embedding of `detectNamespace` from scanner.ts: the regex
`^(@[^\/]+\/[^\/]+)\//` applied to the normalized path of `filePath`
relative to `overrideDir`. -/
def detectNamespace (filePath overrideDir : String) : Option String :=
  let relative := normalizePath (jsRelative overrideDir filePath)
  match splitChar '/' relative.data with
  | s1 :: s2 :: _ :: _ =>
    if s1.head? = some '@' ∧ 2 ≤ s1.length ∧ s2 ≠ [] then
      some ((⟨s1⟩ : String) ++ "/" ++ (⟨s2⟩ : String))
    else none
  | _ => none

/-- Lexicographic order on character lists (JS default string comparison). -/
def charListLt : List Char → List Char → Bool
  | [], [] => false
  | [], _ :: _ => true
  | _ :: _, [] => false
  | a :: as, b :: bs =>
    if a < b then true else if b < a then false else charListLt as bs

/-- JS string `<` comparison. -/
def strLt (a b : String) : Bool := charListLt a.data b.data

/-- Insertion sort step for JS `Array.prototype.sort()` on strings. -/
def insertSorted (x : String) : List String → List String
  | [] => [x]
  | y :: ys => if strLt y x then y :: insertSorted x ys else x :: y :: ys

/-- JS `files.sort()`: lexicographic string sort. -/
def sortStrings (l : List String) : List String := l.foldr insertSorted []

/-- The per-file body of the `scanOverrides` loop: classify one collected
file into the namespaced or flat map (or skip it). -/
def scanOne (targetPackages : List String) (strat : MatchStrategy)
    (dir : String) (acc : OvMap × NsMap) (fullPath : String) :
    OvMap × NsMap :=
  let (flat, namespaced) := acc
  let relative := normalizePath (jsRelative dir fullPath)
  if (splitSlash relative).any (fun part => jsStartsWith part "_") then acc
  else
    match detectNamespace fullPath dir with
    | some ns =>
      if targetPackages.contains ns then
        let nsDir := dir ++ "/" ++ ns
        match getOverrideKey fullPath nsDir strat with
        | some key =>
          if key ≠ "index" then
            let inner := mapSet ((mapGet namespaced ns).getD []) key fullPath
            (flat, mapSet namespaced ns inner)
          else acc
        | none => acc
      else
        match getOverrideKey fullPath dir strat with
        | some key => if key ≠ "index" then (mapSet flat key fullPath, namespaced) else acc
        | none => acc
    | none =>
      match getOverrideKey fullPath dir strat with
      | some key => if key ≠ "index" then (mapSet flat key fullPath, namespaced) else acc
      | none => acc

/-- Embedding of `scanOverrides` from scanner.ts: walk each override root in sorted
order and build the flat and namespaced override maps. -/
def scanOverrides (opts : ResolvedOptions) (roots : FSRoots) : OvMap × NsMap :=
  let targetPackages := opts.targets.map (fun t => t.package)
  opts.overrideDirs.foldl
    (fun acc dir =>
      match roots dir with
      | none => acc
      | some entries =>
        (sortStrings (collectFiles opts.extensions 0 dir entries)).foldl
          (scanOne targetPackages opts.matchStrategy dir) acc)
    ([], [])

/-! ### Resolver (resolver.ts) and plugin startup (plugin.ts) -/

/-- Embedding of `findImporterTarget` from resolver.ts: first target whose source root
(or parent package directory) path-prefixes the importer. -/
def findImporterTarget (importer : String) (opts : ResolvedOptions) :
    Option ResolvedTarget :=
  let norm := normalizePath importer
  opts.targets.find? (fun target =>
    let normSrc := normalizePath target.srcPath
    jsStartsWith norm (normSrc ++ "/") || norm = normSrc ||
      jsStartsWith norm (normalizePath (jsDirname target.srcPath) ++ "/"))

/-- Embedding of `target.package.split("/")` last element, as computed by the default
entry-redirect branch of `resolveEntryRedirect`. -/
def packageLastPart (pkg : String) : String :=
  (splitSlash pkg).getLastD ""

/-- The anchored regex replacement `norm.replace(/\/dist\/app\.(mjs|js)$/,
"/src/app.tsx")`. -/
def replaceDistApp (norm : String) : String :=
  if jsEndsWith norm "/dist/app.mjs" then
    dropSuffixStr norm "/dist/app.mjs" ++ "/src/app.tsx"
  else if jsEndsWith norm "/dist/app.js" then
    dropSuffixStr norm "/dist/app.js" ++ "/src/app.tsx"
  else norm

/-- Embedding of `resolveEntryRedirect` from resolver.ts.  `fsExists` plays
`fs.existsSync`. -/
def resolveEntryRedirect (resolvedId : String) (opts : ResolvedOptions)
    (fsExists : String → Bool) : Option String :=
  let norm := stripQuery (normalizePath resolvedId)
  opts.targets.findSome? (fun target =>
    match target.entryRedirect with
    | some er =>
      let fromPattern := normalizePath er.fromPath
      if jsEndsWith norm ("/" ++ fromPattern) || jsIncludes norm ("/" ++ fromPattern) then
        let pkgDir := jsDirname target.srcPath
        let srcEntry := pkgDir ++ "/" ++ er.toPath
        if fsExists srcEntry then some srcEntry else none
      else none
    | none =>
      let lastPart := packageLastPart target.package
      if jsIncludes norm ("/" ++ lastPart ++ "/dist/app.") then
        let srcEntry := replaceDistApp norm
        if fsExists srcEntry then some srcEntry else none
      else none)

/-- The `resolveId` hook of plugin.ts.  `resolveFn` plays
`this.resolve(source, importer, { skipSelf: true })` (returning the resolved
id or `null`); `fsExists` plays `fs.existsSync`.  Logging is dropped. -/
def resolveId (state : ResolverState) (opts : ResolvedOptions)
    (resolveFn : String → String → Option String) (fsExists : String → Bool)
    (source importer : String) : Option String :=
  if jsStartsWith source "\x00" || importer = "" || jsStartsWith importer "\x00" then
    none
  else
    match findImporterTarget importer opts with
    | some target =>
      let basename := stripExtension (basenameOf source)
      let overrideHit : Option String :=
        if basename ≠ "" ∧ basename ≠ "index" then
          match mapGet state.namespacedOverrides target.package with
          | some nsOverrides =>
            match mapGet nsOverrides basename with
            | some p => some p
            | none => mapGet state.flatOverrides basename
          | none => mapGet state.flatOverrides basename
        else none
      match overrideHit with
      | some p => some p
      | none =>
        if source = target.package ∨ jsStartsWith source (target.package ++ "/") then
          match resolveFn source importer with
          | some resolvedId => resolveEntryRedirect resolvedId opts fsExists
          | none => none
        else none
    | none =>
      opts.targets.findSome? (fun target =>
        if source ≠ target.package ∧ ¬ jsStartsWith source (target.package ++ "/") then
          none
        else
          match resolveFn source importer with
          | some resolvedId => resolveEntryRedirect resolvedId opts fsExists
          | none => none)

/-- The flat-override filter of `unlock` (plugin.ts): keep only flat keys
present in the target file index, returning the kept map together with the
keys warned about and skipped. -/
def filterFlatOverrides (flat : OvMap)
    (targetFiles : List (String × TargetFile)) : OvMap × List String :=
  flat.foldl
    (fun (acc : OvMap × List String) kv =>
      if mapHas targetFiles kv.1 then (mapSet acc.1 kv.1 kv.2, acc.2)
      else (acc.1, acc.2 ++ [kv.1]))
    ([], [])

/-- Embedding of `detectConflicts` from plugin.ts: re-scan each target and, for every
flat key matched by more than one target, abort under `error` (with the
colliding key and target names) or record a warning under `warn`. -/
def detectConflicts (flat : OvMap) (opts : ResolvedOptions) (roots : FSRoots) :
    Except (String × List String) (List (String × List String)) :=
  let perTargetMaps := opts.targets.map (fun t => (t, scanTarget t opts roots))
  flat.foldlM
    (fun warnings kv =>
      let matchingTargets := perTargetMaps.filter (fun tm => mapHas tm.2 kv.1)
      if matchingTargets.length > 1 then
        let names := matchingTargets.map (fun tm => tm.1.package)
        match opts.onConflict with
        | .error => .error (kv.1, names)
        | .warn => .ok (warnings ++ [(kv.1, names)])
        | .first => .ok warnings
      else .ok warnings)
    []

/-- The startup state construction of `unlock` (plugin.ts): scan targets,
scan overrides, filter the flat map against the target file index, run
conflict detection when more than one target is configured and a flat
override exists.  Returns the resolver state, the warned-and-skipped flat
keys, and the conflict-detection outcome (`none` when it did not run). -/
def buildState (opts : ResolvedOptions) (roots : FSRoots) :
    ResolverState × List String ×
      Option (Except (String × List String) (List (String × List String))) :=
  let targetFiles := scanAllTargets opts roots
  let scanned := scanOverrides opts roots
  let filtered := filterFlatOverrides scanned.1 targetFiles
  let conflicts :=
    if opts.targets.length > 1 ∧ filtered.1.length > 0 then
      some (detectConflicts filtered.1 opts roots)
    else none
  (⟨filtered.1, scanned.2, targetFiles⟩, filtered.2, conflicts)

/-! ### Module graph and incremental invalidation engine (watcher.ts)

The host's module graph is modelled by its `fileToModulesMap`
(`getModulesByFile` returns `none` for an untracked file, matching Vite's
`undefined`) and by the `importers` edge list (an edge `(m, p)` says module
`p` imports module `m`).  `invalidateModule` is modelled by collecting the
ids of invalidated modules. -/

/-- The host module graph: `fileToModulesMap` plus importer edges. -/
structure ModuleGraph where
  fileMap : List (String × List Nat)
  importerEdges : List (Nat × Nat)
deriving Repr

/-- Embedding of `moduleGraph.getModulesByFile(file)`. -/
def getModulesByFile (g : ModuleGraph) (file : String) : Option (List Nat) :=
  mapGet g.fileMap file

/-- Embedding of `mod.importers` for a module id. -/
def importersOf (g : ModuleGraph) (m : Nat) : List Nat :=
  (g.importerEdges.filter (fun e => e.1 = m)).map (fun e => e.2)

/-- The breadth-first ancestor walk of watcher.ts: start from the importers
of the root modules, skip already-seen modules, invalidate and enqueue each
new module's own importers.  `fuel` bounds the loop; `bfsImporters` supplies
enough fuel for the walk of any graph (each queue entry stems from the
initial queue or from one importer edge of a newly seen module). -/
def bfsAux (g : ModuleGraph) : Nat → List Nat → List Nat → List Nat
  | 0, _, seen => seen
  | _ + 1, [], seen => seen
  | fuel + 1, m :: queue, seen =>
    if seen.contains m then bfsAux g fuel queue seen
    else bfsAux g fuel (queue ++ importersOf g m) (seen ++ [m])

/-- The set (in visit order) of transitive importers of `roots`, as the
BFS loops of watcher.ts compute and invalidate it. -/
def bfsImporters (g : ModuleGraph) (roots : List Nat) : List Nat :=
  let queue := roots.foldl (fun q m => q ++ importersOf g m) []
  bfsAux g (queue.length + g.importerEdges.length + 1) queue []

/-- Embedding of `invalidateForKey` from watcher.ts: collect the modules invalidated for
one changed override key — the original target module(s) for the key, the
override module(s) (from the post-swap flat map when the key now exists,
from the old map otherwise), then every transitive importer.  When no root
module is in the graph, nothing is invalidated. -/
def invalidateForKey (key : String) (isNowOverride : Bool)
    (oldOverrides : OvMap) (state : ResolverState) (g : ModuleGraph) :
    List Nat :=
  let roots₁ :=
    match mapGet state.targetFiles key with
    | some targetInfo => (getModulesByFile g (normalizePath targetInfo.filePath)).getD []
    | none => []
  let overridePath :=
    if isNowOverride then mapGet state.flatOverrides key
    else mapGet oldOverrides key
  let roots₂ :=
    match overridePath with
    | some p => (getModulesByFile g (normalizePath p)).getD []
    | none => []
  let roots := (roots₁ ++ roots₂).eraseDups
  if roots ≠ [] then roots ++ bfsImporters g roots else []

/-- The outcome of one firing of the debounced structural-change handler. -/
structure RebuildResult where
  newState : ResolverState
  invalidated : List Nat
  fullReload : Bool
deriving Repr

/-- Diff one old/new map pair as the watcher does: for every key of either
map (first-occurrence order), when presence or path changed, run
`invalidateForKey` against the post-swap state. -/
def diffPass (oldMap newMap : OvMap) (state : ResolverState)
    (g : ModuleGraph) : List Nat × Bool :=
  (dedupKeys (oldMap.map (fun kv => kv.1) ++ newMap.map (fun kv => kv.1))).foldl
    (fun (acc : List Nat × Bool) key =>
      let was := mapHas oldMap key
      let is := mapHas newMap key
      if was = is ∧ mapGet oldMap key = mapGet newMap key then acc
      else (acc.1 ++ invalidateForKey key is oldMap state g, true))
    ([], false)

/-- The body of the debounce timer callback in `setupWatcher`: re-scan the
override tree, filter the flat map against the (immutable) target file
index, swap both maps into the state as one unit, diff old against new
(flat, then per-namespace), and send a single full reload when anything
changed. -/
def rebuildOnStructuralChange (state : ResolverState) (opts : ResolvedOptions)
    (roots : FSRoots) (g : ModuleGraph) : RebuildResult :=
  let oldFlat := state.flatOverrides
  let oldNamespaced := state.namespacedOverrides
  let scanned := scanOverrides opts roots
  let fileOverrides :=
    scanned.1.foldl
      (fun m kv => if mapHas state.targetFiles kv.1 then mapSet m kv.1 kv.2 else m) []
  let newState : ResolverState :=
    ⟨fileOverrides, scanned.2, state.targetFiles⟩
  let flatDiff := diffPass oldFlat fileOverrides newState g
  let nsDiff :=
    (dedupKeys (oldNamespaced.map (fun kv => kv.1) ++ scanned.2.map (fun kv => kv.1))).foldl
      (fun (acc : List Nat × Bool) ns =>
        let oldMap := (mapGet oldNamespaced ns).getD []
        let newMap := (mapGet scanned.2 ns).getD []
        let d := diffPass oldMap newMap newState g
        (acc.1 ++ d.1, acc.2 || d.2))
      ([], false)
  let hasChanges := flatDiff.2 || nsDiff.2
  ⟨newState, flatDiff.1 ++ nsDiff.1, hasChanges⟩

/-- The `change` (content edit) handler of `setupWatcher`: for an allowed
extension under an override directory whose basename is an active override
key, do nothing when the host already tracks the file; otherwise invalidate
the original target module's graph entries and send a full reload.  Returns
the invalidated module ids and whether a full reload was sent. -/
def handleContentChange (state : ResolverState) (opts : ResolvedOptions)
    (g : ModuleGraph) (filePath : String) : List Nat × Bool :=
  if ¬ opts.extensions.contains (extnameOf filePath) then ([], false)
  else
    let normFile := normalizePath filePath
    if ¬ opts.overrideDirs.any (fun dir =>
        jsStartsWith normFile (normalizePath dir ++ "/")) then ([], false)
    else
      let basename := stripExtension (basenameOf filePath)
      if basename = "" then ([], false)
      else
        let isTrackedOverride :=
          mapHas state.flatOverrides basename ||
            state.namespacedOverrides.any (fun kv => mapHas kv.2 basename)
        if ¬ isTrackedOverride then ([], false)
        else
          let trackedMods := getModulesByFile g normFile
          if (trackedMods.getD []).length > 0 then ([], false)
          else
            match mapGet state.targetFiles basename with
            | none => ([], false)
            | some targetInfo =>
              match getModulesByFile g (normalizePath targetInfo.filePath) with
              | some origMods => (origMods, true)
              | none => ([], false)

/-! ### Debounce model (setupWatcher)

`handleStructuralChange` first filters events (allowed extension, under an
override directory) and only then touches the timer: `clearTimeout` of any
pending timer followed by `setTimeout(…, 50)` — last-event-wins rescheduling.
The model processes timestamped events in order: a pending timer whose
deadline has passed fires (one recomputation) before the next event is
handled; a qualifying event replaces the pending timer with a new deadline;
at the end of the trace a still-pending timer fires once. -/

/-- Embedding of `DEBOUNCE_WINDOW`: the 50 ms trailing debounce of `setupWatcher`. -/
def DEBOUNCE_WINDOW : Nat := 50

/-- Whether a structural filesystem event qualifies (allowed extension and
located under an override directory) — the pre-debounce guards of
`handleStructuralChange`. -/
def qualifiesStructural (opts : ResolvedOptions) (filePath : String) : Bool :=
  opts.extensions.contains (extnameOf filePath) &&
    (let normFile := normalizePath filePath
     opts.overrideDirs.any (fun dir =>
       jsStartsWith normFile (normalizePath dir ++ "/")))

/-- Number of debounce-timer firings (= override-tree recomputations) for a
trace of timestamped events, given the currently pending deadline. -/
def debounceFirings (opts : ResolvedOptions) (w : Nat) :
    Option Nat → List (Nat × String) → Nat
  | pending, [] => if pending.isSome then 1 else 0
  | pending, (t, p) :: rest =>
    let fired : Nat × Option Nat :=
      match pending with
      | some d => if d ≤ t then (1, none) else (0, some d)
      | none => (0, none)
    if qualifiesStructural opts p then
      fired.1 + debounceFirings opts w (some (t + w)) rest
    else
      fired.1 + debounceFirings opts w fired.2 rest

/-- Full-reload notifications sent by one firing of the debounced rebuild:
the single `ws.send({ type: "full-reload" })` guarded by `hasChanges`. -/
def reloadsOfRebuild (r : RebuildResult) : Nat := if r.fullReload then 1 else 0

/-! ### Atomic snapshot swap (setupWatcher / §5)

The debounce callback replaces `state.flatOverrides` and
`state.namespacedOverrides` via one synchronous `Object.assign` with no
suspension point (`await`) anywhere between computing the fresh pair and
writing both fields.  The model renders the callback's writes to the shared
state as a list of operations in program order, where `suspend` marks the
only points at which the single-threaded event loop may interleave a reader;
reader-observable states are those at the trace boundaries and at
suspension points. -/

/-- A shared-state write operation of the rebuild callback, or a suspension
point of the event loop. -/
inductive WriteOp
  | setFlat (m : OvMap)
  | setNs (m : NsMap)
  | suspend
deriving Repr

/-- Apply one write operation to the shared state. -/
def applyWrite (s : ResolverState) : WriteOp → ResolverState
  | .setFlat m => { s with flatOverrides := m }
  | .setNs m => { s with namespacedOverrides := m }
  | .suspend => s

/-- The write trace of the debounce callback of `setupWatcher`: both fields
of the fresh pair are written inside one synchronous block — no `suspend`
separates them, because the callback body contains no `await` between the
scan and the swap. -/
def rebuildWriteTrace (state : ResolverState) (opts : ResolvedOptions)
    (roots : FSRoots) (g : ModuleGraph) : List WriteOp :=
  let r := rebuildOnStructuralChange state opts roots g
  [.setFlat r.newState.flatOverrides, .setNs r.newState.namespacedOverrides]

/-- The states a concurrent reader can observe while a write trace runs:
the state before the trace, the state at every suspension point, and the
state after the trace. -/
def observableStates (s : ResolverState) : List WriteOp → List ResolverState
  | [] => [s]
  | .suspend :: ops => s :: observableStates s ops
  | op :: ops => observableStates (applyWrite s op) ops

/-- Observable states include the initial one. -/
def observablePairs (s : ResolverState) (ops : List WriteOp) :
    List (OvMap × NsMap) :=
  (s :: observableStates s ops).map (fun st =>
    (st.flatOverrides, st.namespacedOverrides))

/-! ### Concrete fixtures

Small concrete configurations, filesystems and module graphs used to
evaluate the embedded engine at specific inputs. -/

/-- A scoped target `@a/b` with sources at `/pkg/src`. -/
def tNs : ResolvedTarget :=
  { package := "@a/b", aliasStr := "~b", srcDir := "src", srcPath := "/pkg/src" }

/-- Options with the single target `@a/b` and override root `/ov2`. -/
def opts2 : ResolvedOptions :=
  { targets := [tNs], overrideDirs := ["/ov2"], matchStrategy := .basename,
    onConflict := .error, extensions := [".tsx"] }

/-- Override tree `/ov2/@a/b/k.tsx` (a namespaced override for `@a/b`). -/
def roots2 : FSRoots := fun d =>
  if d = "/ov2" then some [.dir "@a" [.dir "b" [.file "k.tsx"]]] else none

/-- Resolver state before the rebuild: no overrides yet, target file `k`. -/
def state2 : ResolverState :=
  { flatOverrides := [], namespacedOverrides := [],
    targetFiles := [("k", ⟨tNs, "/pkg/src/k.tsx"⟩)] }

/-- Module graph tracking both the new override file (module 5) and the
original target file (module 1). -/
def graph2 : ModuleGraph :=
  { fileMap := [("/ov2/@a/b/k.tsx", [5]), ("/pkg/src/k.tsx", [1])],
    importerEdges := [] }

/-- Resolver state with the key `k` present in both the namespaced map of
`@a/b` and the flat map. -/
def state1 : ResolverState :=
  { flatOverrides := [("k", "/ov2/k.tsx")],
    namespacedOverrides := [("@a/b", [("k", "/ov2/@a/b/k.tsx")])],
    targetFiles := [("k", ⟨tNs, "/pkg/src/k.tsx"⟩)] }

/-- Two scoped targets for conflict detection. -/
def tA : ResolvedTarget :=
  { package := "@x/a", aliasStr := "~a", srcDir := "src", srcPath := "/nm/@x/a/src" }

/-- Second conflict-detection target. -/
def tB : ResolvedTarget :=
  { package := "@x/b", aliasStr := "~b", srcDir := "src", srcPath := "/nm/@x/b/src" }

/-- Options with targets `[@x/a, @x/b]` under the `warn` policy. -/
def opts4 : ResolvedOptions :=
  { targets := [tA, tB], overrideDirs := ["/ov4"], matchStrategy := .basename,
    onConflict := .warn, extensions := [".tsx"] }

/-- Both targets contain `K.tsx`; a flat override `K.tsx` exists. -/
def roots4 : FSRoots := fun d =>
  if d = "/nm/@x/a/src" then some [.file "K.tsx"]
  else if d = "/nm/@x/b/src" then some [.file "K.tsx"]
  else if d = "/ov4" then some [.file "K.tsx"]
  else none

/-- Target for the content-edit fixture. -/
def tC : ResolvedTarget :=
  { package := "@c/d", aliasStr := "~d", srcDir := "src", srcPath := "/pkgC/src" }

/-- Options for the content-edit fixture. -/
def optsC : ResolvedOptions :=
  { targets := [tC], overrideDirs := ["/ovC"], matchStrategy := .basename,
    onConflict := .error, extensions := [".tsx"] }

/-- Module graph where module 1 (`a.tsx`) imports module 2 (`b.tsx`), and
the override file `/ovC/b.tsx` is not tracked by the host. -/
def graphC : ModuleGraph :=
  { fileMap := [("/pkgC/src/b.tsx", [2]), ("/pkgC/src/a.tsx", [1])],
    importerEdges := [(2, 1)] }

/-- Resolver state with flat override `b` active. -/
def stateC : ResolverState :=
  { flatOverrides := [("b", "/ovC/b.tsx")], namespacedOverrides := [],
    targetFiles := [("b", ⟨tC, "/pkgC/src/b.tsx"⟩)] }

/-- A bare-name (unscoped) target `mylib`. -/
def tBare : ResolvedTarget :=
  { package := "mylib", aliasStr := "~mylib", srcDir := "src",
    srcPath := "/nmB/mylib/src" }

/-- Options with the single bare-name target `mylib`. -/
def optsB : ResolvedOptions :=
  { targets := [tBare], overrideDirs := ["/ovB"], matchStrategy := .basename,
    onConflict := .error, extensions := [".tsx"] }

/-- Override tree `/ovB/mylib/foo.tsx`: a directory named exactly like the
bare target package. -/
def rootsB : FSRoots := fun d =>
  if d = "/ovB" then some [.dir "mylib" [.file "foo.tsx"]] else none

/-- A target with the default entry redirect (no explicit rule). -/
def t9 : ResolvedTarget :=
  { package := "@acme/dash", aliasStr := "~dash", srcDir := "src",
    srcPath := "/nm/@acme/dash/src" }

/-- Options for the entry-redirect fixture. -/
def opts9 : ResolvedOptions :=
  { targets := [t9], overrideDirs := ["/ov9"], matchStrategy := .basename,
    onConflict := .error, extensions := [".tsx"] }

/-- Empty resolver state (no overrides, no indexed target files). -/
def state9 : ResolverState :=
  { flatOverrides := [], namespacedOverrides := [], targetFiles := [] }

/-- Resolver state with a namespaced override whose key matches no file in
the (empty) target file index. -/
def stateNsOnly : ResolverState :=
  { flatOverrides := [],
    namespacedOverrides := [("@a/b", [("k", "/ov2/@a/b/k.tsx")])],
    targetFiles := [] }

/-! ### Well-formedness predicates for path reasoning -/

/-- A string free of backslashes (so `normalizePath` leaves it unchanged). -/
def NoBS (s : String) : Prop := ∀ ch ∈ s.data, ch ≠ '\\'

/-- A well-formed path segment: non-empty, free of slashes and backslashes. -/
def SegWF (s : String) : Prop :=
  s ≠ "" ∧ ∀ ch ∈ s.data, ch ≠ '/' ∧ ch ≠ '\\'

/-- A string free of question marks (so `stripQuery` leaves it unchanged). -/
def NoQ (s : String) : Prop := ∀ ch ∈ s.data, ch ≠ '?'

instance (s : String) : Decidable (NoBS s) :=
  inferInstanceAs (Decidable (∀ ch ∈ s.data, ch ≠ '\\'))

instance (s : String) : Decidable (NoQ s) :=
  inferInstanceAs (Decidable (∀ ch ∈ s.data, ch ≠ '?'))

instance (s : String) : Decidable (SegWF s) :=
  inferInstanceAs (Decidable (s ≠ "" ∧ ∀ ch ∈ s.data, ch ≠ '/' ∧ ch ≠ '\\'))

/-- Bool predicate: consecutive event timestamps each arrive before the
previously scheduled debounce deadline (`w` after the previous event). -/
def gapsOk (w : Nat) : List (Nat × String) → Bool
  | [] => true
  | [_] => true
  | a :: b :: rest => decide (b.1 < a.1 + w) && gapsOk w (b :: rest)

/-! ## Lemmas -/

theorem listLeads_self_append (p r : List Char) : listLeads p (p ++ r) = true := by
  induction p with
  | nil => rfl
  | cons a as ih => simp [listLeads, ih]

theorem listHasSeg_of_leads {pat l : List Char} (h : listLeads pat l = true) :
    listHasSeg pat l = true := by
  cases l with
  | nil => simpa [listHasSeg] using h
  | cons c cs => simp [listHasSeg, h]

theorem listHasSeg_append_left {pat l : List Char} (a : List Char)
    (h : listHasSeg pat l = true) : listHasSeg pat (a ++ l) = true := by
  induction a with
  | nil => simpa using h
  | cons c cs ih => simp [listHasSeg, ih]

theorem listLeads_of_longer {p q l : List Char} (hp : listLeads p l = true)
    (hq : listLeads q l = true) (hlen : p.length ≤ q.length) :
    listLeads p q = true := by
  induction p generalizing q l with
  | nil => rfl
  | cons a as ih =>
    cases q with
    | nil => simp at hlen
    | cons b bs =>
      cases l with
      | nil => simp [listLeads] at hp
      | cons c cs =>
        simp only [listLeads, Bool.and_eq_true, beq_iff_eq] at hp hq ⊢
        exact ⟨hp.1.trans hq.1.symm, ih hp.2 hq.2 (by simpa using hlen)⟩

theorem jsStartsWith_append (a b : String) : jsStartsWith (a ++ b) a = true := by
  unfold jsStartsWith
  rw [String.data_append]
  exact listLeads_self_append _ _

theorem jsEndsWith_append (a b : String) : jsEndsWith (a ++ b) b = true := by
  unfold jsEndsWith
  rw [String.data_append, List.reverse_append]
  exact listLeads_self_append _ _

theorem dropSuffixStr_append (a b : String) : dropSuffixStr (a ++ b) b = a := by
  unfold dropSuffixStr
  rw [String.data_append, List.reverse_append,
    show b.data.length = b.data.reverse.length by simp, List.drop_left]
  simp

theorem jsIncludes_mid (a p b : String) : jsIncludes (a ++ p ++ b) p = true := by
  unfold jsIncludes
  rw [String.data_append, String.data_append, List.append_assoc]
  exact listHasSeg_append_left _ (listHasSeg_of_leads (listLeads_self_append _ _))

theorem normalizePath_eq_self {s : String} (h : NoBS s) : normalizePath s = s := by
  unfold normalizePath
  have hmap : ∀ l : List Char, (∀ ch ∈ l, ch ≠ '\\') →
      l.map (fun c => if c == '\\' then '/' else c) = l := by
    intro l hl
    induction l with
    | nil => rfl
    | cons c cs ih =>
      have hc : c ≠ '\\' := hl c (by simp)
      have ih' := ih (fun x hx => hl x (by simp [hx]))
      simp only [List.map_cons, ih']
      rw [if_neg (by simpa using hc)]
  rw [hmap s.data h]

theorem stripQuery_eq_self {s : String} (h : ∀ ch ∈ s.data, ch ≠ '?') :
    stripQuery s = s := by
  unfold stripQuery
  have htake : ∀ l : List Char, (∀ ch ∈ l, ch ≠ '?') →
      l.takeWhile (fun c => c ≠ '?') = l := by
    intro l hl
    induction l with
    | nil => rfl
    | cons c cs ih =>
      have hc : (fun c => decide (c ≠ '?')) c = true := by
        simpa using hl c (by simp)
      have ih' := ih (fun x hx => hl x (by simp [hx]))
      rw [List.takeWhile_cons, if_pos hc, ih']
  rw [htake s.data h]

theorem splitChar_ne_nil (c : Char) (l : List Char) : splitChar c l ≠ [] := by
  cases l with
  | nil => simp [splitChar]
  | cons a as =>
    cases h : splitChar c as with
    | nil => simp [splitChar, h]
    | cons r rs => cases hac : (a == c) <;> simp [splitChar, h, hac]

theorem splitChar_append (c : Char) (xs ys : List Char) :
    splitChar c (xs ++ c :: ys) = splitChar c xs ++ splitChar c ys := by
  induction xs with
  | nil =>
    cases h : splitChar c ys with
    | nil => exact absurd h (splitChar_ne_nil c ys)
    | cons r rs => simp [splitChar, h]
  | cons a as ih =>
    cases h : splitChar c as with
    | nil => exact absurd h (splitChar_ne_nil c as)
    | cons r rs =>
      cases hac : (a == c) <;>
        simp [splitChar, List.cons_append, ih, h, hac]

theorem splitChar_no_sep {c : Char} {l : List Char} (h : ∀ x ∈ l, x ≠ c) :
    splitChar c l = [l] := by
  induction l with
  | nil => rfl
  | cons a as ih =>
    have ha : (a == c) = false := by simpa using h a (by simp)
    simp [splitChar, ih (fun x hx => h x (by simp [hx])), ha]

theorem string_mk_data (s : String) : String.mk s.data = s := rfl

theorem splitSlash_append (a b : String) :
    splitSlash (a ++ "/" ++ b) = splitSlash a ++ splitSlash b := by
  unfold splitSlash
  rw [String.data_append, String.data_append,
    show ("/" : String).data = ['/'] from rfl, List.append_assoc,
    show ['/'] ++ b.data = '/' :: b.data from rfl,
    splitChar_append, List.map_append]

theorem pathParts_append (a b : String) :
    pathParts (a ++ "/" ++ b) = pathParts a ++ pathParts b := by
  unfold pathParts
  rw [splitSlash_append, List.filter_append]

theorem segWF_ne_empty {s : String} (h : SegWF s) : s ≠ "" := h.1

theorem segWF_no_slash {s : String} (h : SegWF s) : ∀ x ∈ s.data, x ≠ '/' :=
  fun x hx => (h.2 x hx).1

theorem segWF_noBS {s : String} (h : SegWF s) : NoBS s :=
  fun x hx => (h.2 x hx).2

theorem splitSlash_single {s : String} (h : SegWF s) : splitSlash s = [s] := by
  unfold splitSlash
  rw [splitChar_no_sep (segWF_no_slash h)]
  rfl

theorem pathParts_single {s : String} (h : SegWF s) : pathParts s = [s] := by
  unfold pathParts
  rw [splitSlash_single h]
  simp [List.filter, h.1]

theorem joinSegs_cons (s : String) {rest : List String} (h : rest ≠ []) :
    joinSegs (s :: rest) = s ++ "/" ++ joinSegs rest := by
  cases rest with
  | nil => exact absurd rfl h
  | cons a l => rfl

theorem pathParts_joinSegs {X : List String} (h : ∀ s ∈ X, SegWF s)
    (hne : X ≠ []) : pathParts (joinSegs X) = X := by
  induction X with
  | nil => exact absurd rfl hne
  | cons s rest ih =>
    cases rest with
    | nil =>
      show pathParts (joinSegs [s]) = [s]
      exact pathParts_single (h s (by simp))
    | cons a l =>
      rw [joinSegs_cons s (by simp), pathParts_append,
        pathParts_single (h s (by simp)),
        ih (fun x hx => h x (by simp [hx])) (by simp)]
      rfl

theorem splitSlash_joinSegs {X : List String} (h : ∀ s ∈ X, SegWF s)
    (hne : X ≠ []) : splitSlash (joinSegs X) = X := by
  induction X with
  | nil => exact absurd rfl hne
  | cons s rest ih =>
    cases rest with
    | nil => exact splitSlash_single (h s (by simp))
    | cons a l =>
      rw [joinSegs_cons s (by simp), splitSlash_append,
        splitSlash_single (h s (by simp)),
        ih (fun x hx => h x (by simp [hx])) (by simp)]
      rfl

theorem noBS_append {a b : String} (ha : NoBS a) (hb : NoBS b) :
    NoBS (a ++ b) := by
  intro ch hch
  rw [String.data_append] at hch
  rcases List.mem_append.mp hch with h | h
  · exact ha ch h
  · exact hb ch h

theorem noBS_slash : NoBS "/" := by
  intro ch hch
  simp only [show ("/" : String).data = ['/'] from rfl, List.mem_singleton] at hch
  simp [hch]

theorem noBS_joinSegs {X : List String} (h : ∀ s ∈ X, NoBS s) :
    NoBS (joinSegs X) := by
  induction X with
  | nil => intro ch hch; simp [joinSegs] at hch
  | cons s rest ih =>
    cases rest with
    | nil => exact h s (by simp)
    | cons a l =>
      rw [joinSegs_cons s (by simp)]
      exact noBS_append (noBS_append (h s (by simp)) noBS_slash)
        (ih (fun x hx => h x (by simp [hx])))

theorem commonLen_self_append (F X : List String) :
    commonLen F (F ++ X) = F.length := by
  induction F with
  | nil => cases X <;> rfl
  | cons f fs ih => simp [commonLen, ih]

theorem jsRelative_under (dir : String) {X : List String}
    (hX : ∀ s ∈ X, SegWF s) (hne : X ≠ []) :
    jsRelative dir (dir ++ "/" ++ joinSegs X) = joinSegs X := by
  unfold jsRelative
  simp only [pathParts_append, pathParts_joinSegs hX hne, commonLen_self_append,
    List.drop_left, List.drop_length, List.map_nil, List.nil_append]

theorem getLastD_append_pair (L : List String) (a b d : String) :
    (L ++ [a, b]).getLastD d = b := by
  rw [show L ++ [a, b] = (L ++ [a]) ++ [b] by simp, List.getLastD_concat]

theorem getD_append_mid (L : List String) (a b d : String) :
    (L ++ [a, b]).getD ((L ++ [a, b]).length - 2) d = a := by
  have hlen : (L ++ [a, b]).length = L.length + 2 := by simp
  rw [hlen, List.getD_eq_getElem?_getD, Nat.add_sub_cancel,
    List.getElem?_append_right (by omega)]
  simp

theorem mapHas_map_replace {V : Type} (m : List (String × V)) (k j : String)
    (v : V) :
    mapHas (m.map (fun p => if p.1 = k then (k, v) else p)) j = mapHas m j := by
  unfold mapHas
  induction m with
  | nil => rfl
  | cons p rest ih =>
    by_cases hp : p.1 = k
    · simp only [List.map_cons, if_pos hp, List.any_cons, ih]
      rw [hp]
    · simp only [List.map_cons, if_neg hp, List.any_cons, ih]

theorem mapHas_mapSet {V : Type} (m : List (String × V)) (k j : String) (v : V) :
    mapHas (mapSet m k v) j = (decide (j = k) || mapHas m j) := by
  unfold mapSet
  by_cases h : mapHas m k
  · rw [if_pos h, mapHas_map_replace]
    by_cases hj : j = k
    · subst hj
      simp [h]
    · simp [hj]
  · rw [if_neg h]
    unfold mapHas
    rw [List.any_append]
    simp [List.any_cons, Bool.or_comm, eq_comm]

theorem mapHas_of_mem {V : Type} {m : List (String × V)} {kv : String × V}
    (h : kv ∈ m) : mapHas m kv.1 = true := by
  unfold mapHas
  rw [List.any_eq_true]
  exact ⟨kv, h, by simp⟩

theorem foldl_mem_preserve {α β : Type} {P : β → Prop} {f : β → α → β}
    {l : List α} (h : ∀ b a, a ∈ l → P b → P (f b a)) :
    ∀ b, P b → P (l.foldl f b) := by
  induction l with
  | nil => intro b hb; exact hb
  | cons a as ih =>
    intro b hb
    exact ih (fun b' a' ha' hb' => h b' a' (by simp [ha']) hb') _
      (h b a (by simp) hb)

theorem foldl_preserve {α β : Type} {P : β → Prop} {f : β → α → β}
    (h : ∀ b a, P b → P (f b a)) (l : List α) :
    ∀ b, P b → P (l.foldl f b) :=
  foldl_mem_preserve (fun b a _ hb => h b a hb)

theorem scanOne_no_index {tps : List String} {strat : MatchStrategy}
    {dir : String} (acc : OvMap × NsMap) (fp : String)
    (h : mapHas acc.1 "index" = false) :
    mapHas (scanOne tps strat dir acc fp).1 "index" = false := by
  obtain ⟨flat, ns⟩ := acc
  simp only [scanOne]
  repeat' split
  all_goals first
    | exact h
    | (rename_i hkey
       simp only [mapHas_mapSet]
       simp [show mapHas flat "index" = false from h, Ne.symm hkey])

theorem scanOverrides_no_index (opts : ResolvedOptions) (roots : FSRoots) :
    mapHas (scanOverrides opts roots).1 "index" = false := by
  simp only [scanOverrides]
  apply foldl_preserve
    (P := fun (acc : OvMap × NsMap) => mapHas acc.1 "index" = false)
  · intro b a hb
    cases hr : roots a with
    | none => simp only [hr]; exact hb
    | some entries =>
      simp only [hr]
      exact foldl_preserve (fun b' a' hb' => scanOne_no_index b' a' hb') _ _ hb
  · rfl

/-- The namespaced-override branch of `resolveId`: when the importer's
target has a namespaced entry for the specifier's stripped basename, that
entry is returned (step 1 of the precedence order). -/
theorem resolveId_ns_hit (state : ResolverState) (opts : ResolvedOptions)
    (resolveFn : String → String → Option String) (fsExists : String → Bool)
    (source importer : String) (t : ResolvedTarget) (K p : String)
    (hs0 : jsStartsWith source "\x00" = false) (hi : importer ≠ "")
    (hi0 : jsStartsWith importer "\x00" = false)
    (ht : findImporterTarget importer opts = some t)
    (hK : stripExtension (basenameOf source) = K) (hK0 : K ≠ "")
    (hKi : K ≠ "index")
    (hns : (mapGet state.namespacedOverrides t.package).bind
      (fun m => mapGet m K) = some p) :
    resolveId state opts resolveFn fsExists source importer = some p := by
  obtain ⟨nsm, hm, hk⟩ := Option.bind_eq_some.mp hns
  unfold resolveId
  rw [if_neg (by simp [hs0, hi, hi0])]
  rw [ht]
  simp only [hK, hm, hk]
  rw [if_pos ⟨hK0, hKi⟩]

theorem noQ_append {a b : String} (ha : NoQ a) (hb : NoQ b) : NoQ (a ++ b) := by
  intro ch hch
  rw [String.data_append] at hch
  rcases List.mem_append.mp hch with h | h
  · exact ha ch h
  · exact hb ch h

theorem filterFlat_warned_sub (flat : OvMap) (tf : List (String × TargetFile)) :
    ∀ k ∈ (filterFlatOverrides flat tf).2, mapHas flat k = true := by
  unfold filterFlatOverrides
  apply foldl_mem_preserve
    (P := fun (acc : OvMap × List String) => ∀ k ∈ acc.2, mapHas flat k = true)
  · intro b a ha hb
    by_cases hm : mapHas tf a.1 = true
    · simpa [hm] using hb
    · simp only [if_neg hm]
      intro k hk
      rcases List.mem_append.mp hk with h | h
      · exact hb k h
      · rw [List.mem_singleton] at h
        subst h
        exact mapHas_of_mem ha
  · intro k hk
    simp at hk

theorem not_endsWith_mjs (a : String) :
    jsEndsWith (a ++ "/dist/app.js") "/dist/app.mjs" = false := by
  by_contra hc
  rw [Bool.not_eq_false] at hc
  have h2 : jsEndsWith (a ++ "/dist/app.js") "/dist/app.js" = true :=
    jsEndsWith_append a "/dist/app.js"
  unfold jsEndsWith at hc h2
  have hlen : ("/dist/app.js" : String).data.reverse.length ≤
      ("/dist/app.mjs" : String).data.reverse.length := by decide
  exact absurd (listLeads_of_longer h2 hc hlen) (by decide)

theorem map_mk_data (L : List (List Char)) :
    (L.map (fun l => (⟨l⟩ : String))).map String.data = L := by
  rw [List.map_map]
  have h : (String.data ∘ fun l => (⟨l⟩ : String)) = id := rfl
  rw [h, List.map_id]

theorem splitChar_data_joinSegs {X : List String} (hX : ∀ s ∈ X, SegWF s)
    (hne : X ≠ []) :
    splitChar '/' (joinSegs X).data = X.map String.data := by
  have h1 := splitSlash_joinSegs hX hne
  unfold splitSlash at h1
  calc splitChar '/' (joinSegs X).data
      = ((splitChar '/' (joinSegs X).data).map
          (fun l => (⟨l⟩ : String))).map String.data := (map_mk_data _).symm
    _ = X.map String.data := by rw [h1]

theorem data_ne_nil_of_ne_empty {s : String} (h : s ≠ "") : s.data ≠ [] :=
  fun hd => h (String.ext hd)

theorem head_of_starts_at {s : String} (h : jsStartsWith s "@" = true) :
    s.data.head? = some '@' := by
  unfold jsStartsWith at h
  cases hd : s.data with
  | nil => rw [hd] at h; simp [listLeads] at h
  | cons c cs =>
    rw [hd] at h
    simp only [show ("@" : String).data = ['@'] from rfl, listLeads,
      Bool.and_eq_true, beq_iff_eq] at h
    rw [List.head?_cons, h.1.symm]

theorem head_of_not_starts_at {s : String} (h : jsStartsWith s "@" = false) :
    s.data.head? ≠ some '@' := by
  unfold jsStartsWith at h
  cases hd : s.data with
  | nil => simp
  | cons c cs =>
    rw [hd] at h
    simp only [show ("@" : String).data = ['@'] from rfl, listLeads] at h
    intro hc
    rw [List.head?_cons, Option.some.injEq] at hc
    subst hc
    simp at h

theorem segsWF_two {scope nm fileName : String} {restSegs : List String}
    (hscope : SegWF scope) (hnm : SegWF nm)
    (hrest : ∀ s ∈ restSegs, SegWF s) (hfile : SegWF fileName) :
    ∀ s ∈ scope :: nm :: restSegs ++ [fileName], SegWF s := by
  intro s hs
  rcases List.mem_cons.mp hs with rfl | hs2
  · exact hscope
  rcases List.mem_cons.mp hs2 with rfl | hs3
  · exact hnm
  rcases List.mem_append.mp hs3 with hs4 | hs5
  · exact hrest s hs4
  · rw [List.mem_singleton] at hs5
    subst hs5
    exact hfile

theorem segsWF_one {bare fileName : String} {restSegs : List String}
    (hbare : SegWF bare) (hrest : ∀ s ∈ restSegs, SegWF s)
    (hfile : SegWF fileName) :
    ∀ s ∈ bare :: restSegs ++ [fileName], SegWF s := by
  intro s hs
  rcases List.mem_cons.mp hs with rfl | hs2
  · exact hbare
  rcases List.mem_append.mp hs2 with hs3 | hs4
  · exact hrest s hs3
  · rw [List.mem_singleton] at hs4
    subst hs4
    exact hfile

theorem detectNamespace_scoped (dir scope nm : String)
    (restSegs : List String) (fileName : String) (hscope : SegWF scope)
    (hat : jsStartsWith scope "@" = true) (hlen2 : 2 ≤ scope.data.length)
    (hnm : SegWF nm) (hrest : ∀ s ∈ restSegs, SegWF s)
    (hfile : SegWF fileName) :
    detectNamespace
      (dir ++ "/" ++ joinSegs (scope :: nm :: restSegs ++ [fileName])) dir
      = some (scope ++ "/" ++ nm) := by
  have hXwf := segsWF_two hscope hnm hrest hfile
  have hne : scope :: nm :: restSegs ++ [fileName] ≠ [] := by simp
  have harg : normalizePath (jsRelative dir
      (dir ++ "/" ++ joinSegs (scope :: nm :: restSegs ++ [fileName]))) =
      joinSegs (scope :: nm :: restSegs ++ [fileName]) := by
    rw [jsRelative_under dir hXwf hne,
      normalizePath_eq_self (noBS_joinSegs (fun s hs => segWF_noBS (hXwf s hs)))]
  cases hcc : (restSegs ++ [fileName]).map String.data with
  | nil => simp at hcc
  | cons c cs =>
    have hmap : (scope :: nm :: restSegs ++ [fileName]).map String.data =
        scope.data :: nm.data :: c :: cs := by
      simp [hcc]
    simp only [detectNamespace, harg, splitChar_data_joinSegs hXwf hne, hmap]
    rw [if_pos ⟨head_of_starts_at hat, hlen2,
      data_ne_nil_of_ne_empty hnm.1⟩]

theorem detectNamespace_bare (dir bare : String) (restSegs : List String)
    (fileName : String) (hbare : SegWF bare)
    (hnotat : jsStartsWith bare "@" = false)
    (hrest : ∀ s ∈ restSegs, SegWF s) (hfile : SegWF fileName) :
    detectNamespace (dir ++ "/" ++ joinSegs (bare :: restSegs ++ [fileName]))
      dir = none := by
  have hXwf := segsWF_one hbare hrest hfile
  have hne : bare :: restSegs ++ [fileName] ≠ [] := by simp
  have harg : normalizePath (jsRelative dir
      (dir ++ "/" ++ joinSegs (bare :: restSegs ++ [fileName]))) =
      joinSegs (bare :: restSegs ++ [fileName]) := by
    rw [jsRelative_under dir hXwf hne,
      normalizePath_eq_self (noBS_joinSegs (fun s hs => segWF_noBS (hXwf s hs)))]
  cases hcc : (restSegs ++ [fileName]).map String.data with
  | nil => simp at hcc
  | cons c cs =>
    have hmap : (bare :: restSegs ++ [fileName]).map String.data =
        bare.data :: c :: cs := by
      simp [hcc]
    cases cs with
    | nil =>
      simp only [detectNamespace, harg, splitChar_data_joinSegs hXwf hne, hmap]
    | cons c2 cs2 =>
      simp only [detectNamespace, harg, splitChar_data_joinSegs hXwf hne, hmap]
      rw [if_neg]
      intro hcond
      exact head_of_not_starts_at hnotat hcond.1

/-! ## Claims -/

/-- C1: for a resolution request whose importer lies inside a configured
Target's source tree and whose specifier's extension-stripped basename `K`
is non-empty and not `index`, when both the Target's namespaced mapping and
the flat mapping contain `K`, `resolveId` returns the namespaced override
file's path, not the flat one. -/
theorem claim1_namespace_precedence (state : ResolverState)
    (opts : ResolvedOptions) (resolveFn : String → String → Option String)
    (fsExists : String → Bool) (source importer : String)
    (t : ResolvedTarget) (K p : String)
    (hs0 : jsStartsWith source "\x00" = false) (hi : importer ≠ "")
    (hi0 : jsStartsWith importer "\x00" = false)
    (ht : findImporterTarget importer opts = some t)
    (hK : stripExtension (basenameOf source) = K) (hK0 : K ≠ "")
    (hKi : K ≠ "index")
    (hns : (mapGet state.namespacedOverrides t.package).bind
      (fun m => mapGet m K) = some p)
    (hflat : mapHas state.flatOverrides K = true) :
    resolveId state opts resolveFn fsExists source importer = some p ∧
      ∀ q, mapGet state.flatOverrides K = some q → q ≠ p →
        resolveId state opts resolveFn fsExists source importer ≠ some q := by
  have h := resolveId_ns_hit state opts resolveFn fsExists source importer
    t K p hs0 hi hi0 ht hK hK0 hKi hns
  refine ⟨h, fun q _ hqp hcontra => hqp ?_⟩
  rw [h] at hcontra
  exact (Option.some.inj hcontra).symm

/-- C1 witness: a concrete resolution where both mappings contain `k` and
the namespaced file is returned. -/
theorem claim1_witness :
    resolveId state1 opts2 (fun _ _ => none) (fun _ => false) "./k"
      "/pkg/src/main.tsx" = some "/ov2/@a/b/k.tsx" :=
  (claim1_namespace_precedence state1 opts2 (fun _ _ => none) (fun _ => false)
    "./k" "/pkg/src/main.tsx" tNs "k" "/ov2/@a/b/k.tsx" (by decide) (by decide)
    (by decide) (by decide) (by decide) (by decide) (by decide) (by decide)
    (by decide)).1

/-- C2, evaluated at the failing input: a namespaced override key `k` is
created (new file `/ov2/@a/b/k.tsx`, tracked by the host as module 5), yet
the rebuild invalidates only the original target module 1 — the override
module 5 is never invalidated, because `invalidateForKey` looks the new
path up in the flat map instead of the namespaced map. -/
theorem claim2_ns_created_key_skips_override_module :
    (rebuildOnStructuralChange state2 opts2 roots2 graph2).invalidated = [1] ∧
    (rebuildOnStructuralChange state2 opts2 roots2 graph2).fullReload = true ∧
    5 ∉ (rebuildOnStructuralChange state2 opts2 roots2 graph2).invalidated :=
  ⟨by decide, by decide, by decide⟩

/-- C3 counterexample: module 1 (`a.tsx`) imports module 2 (the original of
the overridden `b.tsx`); a content edit of the untracked override file
`/ovC/b.tsx` invalidates only module 2 and reloads — the transitive
importer module 1 is not invalidated, contradicting the claim. -/
theorem claim3_counterexample :
    handleContentChange stateC optsC graphC "/ovC/b.tsx" = ([2], true) ∧
      1 ∉ (handleContentChange stateC optsC graphC "/ovC/b.tsx").1 :=
  ⟨by decide, by decide⟩

/-- C3 as amended: a content edit of an override file whose key is active
but which the host does not track invalidates exactly the original target
module's graph entries (not their transitive importers) and triggers a full
reload; when the host does track the file, nothing happens. -/
theorem claim3_amended_content_edit (state : ResolverState)
    (opts : ResolvedOptions) (g : ModuleGraph) (filePath bn : String)
    (hext : opts.extensions.contains (extnameOf filePath) = true)
    (hdir : (opts.overrideDirs.any (fun dir =>
      jsStartsWith (normalizePath filePath) (normalizePath dir ++ "/"))) = true)
    (hbn : stripExtension (basenameOf filePath) = bn) (hbn0 : bn ≠ "")
    (hactive : (mapHas state.flatOverrides bn ||
      state.namespacedOverrides.any (fun kv => mapHas kv.2 bn)) = true) :
    (∀ mods, getModulesByFile g (normalizePath filePath) = some mods →
      mods ≠ [] → handleContentChange state opts g filePath = ([], false)) ∧
    (getModulesByFile g (normalizePath filePath) = none →
      ∀ tf origMods, mapGet state.targetFiles bn = some tf →
        getModulesByFile g (normalizePath tf.filePath) = some origMods →
        handleContentChange state opts g filePath = (origMods, true)) := by
  constructor
  · intro mods hmods hne
    simp only [handleContentChange, hext, hdir, hbn, hactive, hmods]
    simp [hbn0, List.length_pos.mpr hne]
  · intro hnone tf origMods htf horig
    simp only [handleContentChange, hext, hdir, hbn, hactive, hnone, htf, horig]
    simp [hbn0]

/-- C3 witness: the amended behaviour at a concrete input (untracked edit
of `/ovC/b.tsx` invalidates exactly the original module 2 and reloads). -/
theorem claim3_witness :
    handleContentChange stateC optsC graphC "/ovC/b.tsx" = ([2], true) :=
  (claim3_amended_content_edit stateC optsC graphC "/ovC/b.tsx" "b"
    (by decide) (by decide) (by decide) (by decide) (by decide)).2
    (by decide) ⟨tC, "/pkgC/src/b.tsx"⟩ [2] (by decide) (by decide)

/-- C4, evaluated at the failing input: both targets `@x/a` and `@x/b`
contain `K.tsx` and a flat override `K` exists; under policy `warn`
conflict detection reports both targets for `K`, yet the combined target
file index retains the LAST-encountered target's file (`@x/b`), not the
first-encountered one that the code's own documentation and warning message
promise. -/
theorem claim4_last_target_wins :
    (buildState opts4 roots4).2.2 = some (.ok [("K", ["@x/a", "@x/b"])]) ∧
    mapGet (scanAllTargets opts4 roots4) "K" =
      some ⟨tB, "/nm/@x/b/src/K.tsx"⟩ :=
  ⟨rfl, by decide⟩

/-- C5 counterexample: with the bare-name target `mylib` configured and an
override file `/ovB/mylib/foo.tsx` whose path relative to the override root
begins with the bare segment `mylib`, the scan leaves the namespaced
mapping empty and files the override under the flat mapping — a bare
`name` segment is never recognized as a namespace. -/
theorem claim5_counterexample :
    (scanOverrides optsB rootsB).2 = [] ∧
    mapGet (scanOverrides optsB rootsB).1 "foo" =
      some "/ovB/mylib/foo.tsx" :=
  ⟨by decide, by decide⟩

/-- C5 as amended: only a leading `@scope/name` directory pair equal to a
configured Target's package identifier designates a namespaced scope — such
files are placed in the namespaced mapping under that identifier and the
flat mapping is untouched; a leading bare `name` segment is never detected
as a namespace, and such files are placed in the flat mapping. -/
theorem claim5_amended_namespace_detection :
    (∀ (targetPackages : List String) (strat : MatchStrategy)
      (dir scope nm : String) (restSegs : List String) (fileName : String)
      (flat : OvMap) (ns : NsMap) (key : String),
      SegWF scope → jsStartsWith scope "@" = true → 2 ≤ scope.data.length →
      SegWF nm → (∀ s ∈ restSegs, SegWF s) → SegWF fileName →
      ((scope :: nm :: restSegs ++ [fileName]).any
        (fun part => jsStartsWith part "_")) = false →
      targetPackages.contains (scope ++ "/" ++ nm) = true →
      getOverrideKey
        (dir ++ "/" ++ joinSegs (scope :: nm :: restSegs ++ [fileName]))
        (dir ++ "/" ++ (scope ++ "/" ++ nm)) strat = some key →
      key ≠ "index" →
      scanOne targetPackages strat dir (flat, ns)
        (dir ++ "/" ++ joinSegs (scope :: nm :: restSegs ++ [fileName])) =
        (flat, mapSet ns (scope ++ "/" ++ nm)
          (mapSet ((mapGet ns (scope ++ "/" ++ nm)).getD []) key
            (dir ++ "/" ++ joinSegs (scope :: nm :: restSegs ++ [fileName]))))) ∧
    (∀ (targetPackages : List String) (strat : MatchStrategy)
      (dir bare : String) (restSegs : List String) (fileName : String)
      (flat : OvMap) (ns : NsMap) (key : String),
      SegWF bare → jsStartsWith bare "@" = false →
      (∀ s ∈ restSegs, SegWF s) → SegWF fileName →
      ((bare :: restSegs ++ [fileName]).any
        (fun part => jsStartsWith part "_")) = false →
      getOverrideKey (dir ++ "/" ++ joinSegs (bare :: restSegs ++ [fileName]))
        dir strat = some key →
      key ≠ "index" →
      detectNamespace
        (dir ++ "/" ++ joinSegs (bare :: restSegs ++ [fileName])) dir
        = none ∧
      scanOne targetPackages strat dir (flat, ns)
        (dir ++ "/" ++ joinSegs (bare :: restSegs ++ [fileName])) =
        (mapSet flat key
          (dir ++ "/" ++ joinSegs (bare :: restSegs ++ [fileName])), ns)) := by
  constructor
  · intro targetPackages strat dir scope nm restSegs fileName flat ns key
      hscope hat hlen2 hnm hrest hfile hus hin hkey hki
    have hXwf := segsWF_two hscope hnm hrest hfile
    have hne : scope :: nm :: restSegs ++ [fileName] ≠ [] := by simp
    have harg : normalizePath (jsRelative dir
        (dir ++ "/" ++ joinSegs (scope :: nm :: restSegs ++ [fileName]))) =
        joinSegs (scope :: nm :: restSegs ++ [fileName]) := by
      rw [jsRelative_under dir hXwf hne, normalizePath_eq_self
        (noBS_joinSegs (fun s hs => segWF_noBS (hXwf s hs)))]
    have hskip : ((splitSlash (normalizePath (jsRelative dir
        (dir ++ "/" ++ joinSegs (scope :: nm :: restSegs ++ [fileName]))))).any
        (fun part => jsStartsWith part "_")) = false := by
      rw [harg, splitSlash_joinSegs hXwf hne]
      exact hus
    have hdet := detectNamespace_scoped dir scope nm restSegs fileName
      hscope hat hlen2 hnm hrest hfile
    simp only [scanOne, hskip, hdet, hin, hkey]
    simp [hki]
  · intro targetPackages strat dir bare restSegs fileName flat ns key
      hbare hnotat hrest hfile hus hkey hki
    have hXwf := segsWF_one hbare hrest hfile
    have hne : bare :: restSegs ++ [fileName] ≠ [] := by simp
    have harg : normalizePath (jsRelative dir
        (dir ++ "/" ++ joinSegs (bare :: restSegs ++ [fileName]))) =
        joinSegs (bare :: restSegs ++ [fileName]) := by
      rw [jsRelative_under dir hXwf hne, normalizePath_eq_self
        (noBS_joinSegs (fun s hs => segWF_noBS (hXwf s hs)))]
    have hskip : ((splitSlash (normalizePath (jsRelative dir
        (dir ++ "/" ++ joinSegs (bare :: restSegs ++ [fileName]))))).any
        (fun part => jsStartsWith part "_")) = false := by
      rw [harg, splitSlash_joinSegs hXwf hne]
      exact hus
    have hdet := detectNamespace_bare dir bare restSegs fileName hbare
      hnotat hrest hfile
    refine ⟨hdet, ?_⟩
    simp only [scanOne, hskip, hdet, hkey]
    simp [hki]

/-- C5 witness: `@a/b/k.tsx` under the override root is filed in the
namespaced mapping under `@a/b`, and `mylib/foo.tsx` is filed flat. -/
theorem claim5_witness :
    scanOne ["@a/b"] .basename "/ov2" ([], [])
      ("/ov2" ++ "/" ++ joinSegs ("@a" :: "b" :: [] ++ ["k.tsx"])) =
      ([], mapSet [] ("@a" ++ "/" ++ "b")
        (mapSet ((mapGet ([] : NsMap) ("@a" ++ "/" ++ "b")).getD []) "k"
          ("/ov2" ++ "/" ++ joinSegs ("@a" :: "b" :: [] ++ ["k.tsx"])))) ∧
    scanOne ["mylib"] .basename "/ovB" ([], [])
      ("/ovB" ++ "/" ++ joinSegs ("mylib" :: [] ++ ["foo.tsx"])) =
      (mapSet [] "foo"
        ("/ovB" ++ "/" ++ joinSegs ("mylib" :: [] ++ ["foo.tsx"])), []) :=
  ⟨claim5_amended_namespace_detection.1 ["@a/b"] .basename "/ov2" "@a" "b"
    [] "k.tsx" [] [] "k" (by decide) (by decide) (by decide) (by decide)
    (by decide) (by decide) (by decide) (by decide) (by decide) (by decide),
  (claim5_amended_namespace_detection.2 ["mylib"] .basename "/ovB" "mylib"
    [] "foo.tsx" [] [] "foo" (by decide) (by decide) (by decide) (by decide)
    (by decide) (by decide) (by decide)).2⟩

/-- C6: N qualifying structural events arriving inside the (reset-on-event)
debounce window produce exactly one recomputation, and one firing of the
rebuild sends at most one full-reload notification. -/
theorem claim6_debounce_coalescing (opts : ResolvedOptions) (roots : FSRoots)
    (events : List (Nat × String)) (hne : events ≠ [])
    (hq : ∀ e ∈ events, qualifiesStructural opts e.2 = true)
    (hgap : gapsOk DEBOUNCE_WINDOW events = true) :
    debounceFirings opts DEBOUNCE_WINDOW none events = 1 ∧
    ∀ state g,
      reloadsOfRebuild (rebuildOnStructuralChange state opts roots g) ≤ 1 := by
  have helper : ∀ (rest : List (Nat × String)) (t0 : Nat),
      (∀ e ∈ rest, qualifiesStructural opts e.2 = true) →
      gapsOk DEBOUNCE_WINDOW ((t0, "") :: rest) = true →
      debounceFirings opts DEBOUNCE_WINDOW (some (t0 + DEBOUNCE_WINDOW)) rest
        = 1 := by
    intro rest
    induction rest with
    | nil => intro t0 _ _; rfl
    | cons b rest' ih =>
      intro t0 hq' hgap'
      obtain ⟨t1, p1⟩ := b
      have h1 : t1 < t0 + DEBOUNCE_WINDOW := by
        have := hgap'
        simp only [gapsOk, Bool.and_eq_true, decide_eq_true_eq] at this
        exact this.1
      have h2 : gapsOk DEBOUNCE_WINDOW ((t1, "") :: rest') = true := by
        have := hgap'
        simp only [gapsOk, Bool.and_eq_true] at this
        cases rest' with
        | nil => rfl
        | cons c rest'' =>
          simp only [gapsOk, Bool.and_eq_true]
          simpa [gapsOk] using this.2
      have hqb : qualifiesStructural opts p1 = true := hq' (t1, p1) (by simp)
      simp only [debounceFirings, hqb, if_pos,
        if_neg (by omega : ¬ t0 + DEBOUNCE_WINDOW ≤ t1)]
      simpa using ih t1 (fun e he => hq' e (by simp [he])) h2
  constructor
  · cases events with
    | nil => exact absurd rfl hne
    | cons e rest =>
      obtain ⟨t0, p0⟩ := e
      have hq0 : qualifiesStructural opts p0 = true := hq (t0, p0) (by simp)
      have hg : gapsOk DEBOUNCE_WINDOW ((t0, "") :: rest) = true := by
        cases rest with
        | nil => rfl
        | cons c rest'' => simpa [gapsOk] using hgap
      simp only [debounceFirings, hq0, if_pos]
      simpa using helper rest t0 (fun e he => hq e (by simp [he])) hg
  · intro state g
    unfold reloadsOfRebuild
    split <;> simp

/-- C6 witness: three qualifying events 10 ms apart coalesce into one
recomputation. -/
theorem claim6_witness :
    debounceFirings opts2 DEBOUNCE_WINDOW none
      [(0, "/ov2/x.tsx"), (10, "/ov2/y.tsx"), (20, "/ov2/z.tsx")] = 1 :=
  (claim6_debounce_coalescing opts2 roots2
    [(0, "/ov2/x.tsx"), (10, "/ov2/y.tsx"), (20, "/ov2/z.tsx")]
    (by decide) (by decide) (by decide)).1

/-- C7: a reader interleaved with the debounced rebuild observes either the
fully-old pair of mappings or the fully-new pair — never a mixture, because
both fields are written inside one synchronous block of the write trace. -/
theorem claim7_atomic_snapshot (s : ResolverState) (opts : ResolvedOptions)
    (roots : FSRoots) (g : ModuleGraph) :
    ∀ pair ∈ observablePairs s (rebuildWriteTrace s opts roots g),
      pair = (s.flatOverrides, s.namespacedOverrides) ∨
      pair = ((rebuildOnStructuralChange s opts roots g).newState.flatOverrides,
        (rebuildOnStructuralChange s opts roots g).newState.namespacedOverrides) := by
  intro pair hp
  simp only [observablePairs, rebuildWriteTrace, observableStates, applyWrite,
    List.map_cons, List.map_nil, List.mem_cons, List.not_mem_nil,
    or_false] at hp
  rcases hp with h | h
  · exact Or.inl h
  · exact Or.inr h

/-- C7 witness: the concrete observable pairs around one rebuild are the
old pair and the new pair. -/
theorem claim7_witness :
    (state2.flatOverrides, state2.namespacedOverrides) =
      (state2.flatOverrides, state2.namespacedOverrides) ∨
    (state2.flatOverrides, state2.namespacedOverrides) =
      ((rebuildOnStructuralChange state2 opts2 roots2 graph2).newState.flatOverrides,
        (rebuildOnStructuralChange state2 opts2 roots2 graph2).newState.namespacedOverrides) :=
  claim7_atomic_snapshot state2 opts2 roots2 graph2
    (state2.flatOverrides, state2.namespacedOverrides) (by simp [observablePairs])

/-- C8: under the basename strategy an `index.<ext>` file inside a named
subdirectory `foo/` yields the key `foo` (the literal key `index` is never
produced for it), and the scan never stores the key `index` in the flat
mapping. -/
theorem claim8_index_key :
    (∀ (pre foo fileName baseDir : String), NoBS pre → SegWF foo →
      SegWF fileName → stripExtension fileName = "index" →
      getOverrideKey (pre ++ "/" ++ foo ++ "/" ++ fileName) baseDir
        .basename = some foo) ∧
    (∀ (opts : ResolvedOptions) (roots : FSRoots),
      mapHas (scanOverrides opts roots).1 "index" = false) := by
  constructor
  · intro pre foo fileName baseDir hpre hfoo hfile hstrip
    have hnorm : normalizePath (pre ++ "/" ++ foo ++ "/" ++ fileName)
        = pre ++ "/" ++ foo ++ "/" ++ fileName :=
      normalizePath_eq_self
        (noBS_append (noBS_append (noBS_append (noBS_append hpre noBS_slash)
          (segWF_noBS hfoo)) noBS_slash) (segWF_noBS hfile))
    have hparts : pathParts (pre ++ "/" ++ foo ++ "/" ++ fileName)
        = pathParts pre ++ [foo, fileName] := by
      rw [pathParts_append, pathParts_append, pathParts_single hfoo,
        pathParts_single hfile]
      simp
    simp only [getOverrideKey, hnorm, hparts, getLastD_append_pair, hstrip,
      getD_append_mid]
    have hlen : (pathParts pre ++ [foo, fileName]).length =
        (pathParts pre).length + 2 := by simp
    simp [hlen, hfoo.1]
  · exact fun opts roots => scanOverrides_no_index opts roots

/-- C8 witness: `/ov/foo/index.tsx` yields key `foo`, and the fixture scan
has no flat key `index`. -/
theorem claim8_witness :
    getOverrideKey ("/ov" ++ "/" ++ "foo" ++ "/" ++ "index.tsx") "/ov"
      .basename = some "foo" ∧
    mapHas (scanOverrides opts2 roots2).1 "index" = false :=
  ⟨claim8_index_key.1 "/ov" "foo" "index.tsx" "/ov" (by decide) (by decide)
    (by decide) (by decide), claim8_index_key.2 opts2 roots2⟩

/-- The default entry-redirect rule of `resolveEntryRedirect` applied to a
resolved id `<...>/<lastPart>/dist/app.mjs` (or `.js`): redirect to
`<...>/<lastPart>/src/app.tsx` exactly when that file exists. -/
theorem resolveEntryRedirect_default (pre last suffix : String)
    (t : ResolvedTarget) (opts : ResolvedOptions) (fsExists : String → Bool)
    (hopts : opts.targets = [t]) (her : t.entryRedirect = none)
    (hlast : packageLastPart t.package = last)
    (hpre : NoBS pre) (hpq : NoQ pre) (hlNB : NoBS last) (hlq : NoQ last)
    (hsuffix : suffix = "/dist/app.mjs" ∨ suffix = "/dist/app.js") :
    resolveEntryRedirect (pre ++ "/" ++ last ++ suffix) opts fsExists =
      (if fsExists (pre ++ "/" ++ last ++ "/src/app.tsx") then
        some (pre ++ "/" ++ last ++ "/src/app.tsx") else none) := by
  have hA : NoBS (pre ++ "/" ++ last) :=
    noBS_append (noBS_append hpre (by decide)) hlNB
  have hAq : NoQ (pre ++ "/" ++ last) :=
    noQ_append (noQ_append hpq (by decide)) hlq
  rcases hsuffix with h | h <;> subst h
  · have hnorm : stripQuery (normalizePath
        (pre ++ "/" ++ last ++ "/dist/app.mjs")) =
        pre ++ "/" ++ last ++ "/dist/app.mjs" := by
      rw [normalizePath_eq_self (noBS_append hA (by decide)),
        stripQuery_eq_self (noQ_append hAq (by decide))]
    have hform : pre ++ "/" ++ last ++ "/dist/app.mjs" =
        pre ++ ("/" ++ last ++ "/dist/app.") ++ "mjs" := by
      apply String.ext
      have hd : ("/dist/app.mjs" : String).data =
          ("/dist/app." : String).data ++ ("mjs" : String).data := by decide
      simp [String.data_append, List.append_assoc, hd]
    have hinc : jsIncludes (pre ++ "/" ++ last ++ "/dist/app.mjs")
        ("/" ++ last ++ "/dist/app.") = true := by
      rw [hform]; exact jsIncludes_mid _ _ _
    have hrep : replaceDistApp (pre ++ "/" ++ last ++ "/dist/app.mjs") =
        pre ++ "/" ++ last ++ "/src/app.tsx" := by
      simp only [replaceDistApp, jsEndsWith_append, if_true,
        dropSuffixStr_append]
    unfold resolveEntryRedirect
    rw [hopts]
    simp only [List.findSome?, her, hlast, hnorm, hinc, hrep, if_true]
    by_cases hfs : fsExists (pre ++ "/" ++ last ++ "/src/app.tsx") = true <;>
      simp [hfs]
  · have hnorm : stripQuery (normalizePath
        (pre ++ "/" ++ last ++ "/dist/app.js")) =
        pre ++ "/" ++ last ++ "/dist/app.js" := by
      rw [normalizePath_eq_self (noBS_append hA (by decide)),
        stripQuery_eq_self (noQ_append hAq (by decide))]
    have hform : pre ++ "/" ++ last ++ "/dist/app.js" =
        pre ++ ("/" ++ last ++ "/dist/app.") ++ "js" := by
      apply String.ext
      have hd : ("/dist/app.js" : String).data =
          ("/dist/app." : String).data ++ ("js" : String).data := by decide
      simp [String.data_append, List.append_assoc, hd]
    have hinc : jsIncludes (pre ++ "/" ++ last ++ "/dist/app.js")
        ("/" ++ last ++ "/dist/app.") = true := by
      rw [hform]; exact jsIncludes_mid _ _ _
    have hrep : replaceDistApp (pre ++ "/" ++ last ++ "/dist/app.js") =
        pre ++ "/" ++ last ++ "/src/app.tsx" := by
      simp only [replaceDistApp, not_endsWith_mjs, jsEndsWith_append,
        Bool.false_eq_true, if_false, if_true, dropSuffixStr_append]
    unfold resolveEntryRedirect
    rw [hopts]
    simp only [List.findSome?, her, hlast, hnorm, hinc, hrep, if_true]
    by_cases hfs : fsExists (pre ++ "/" ++ last ++ "/src/app.tsx") = true <;>
      simp [hfs]

/-- C9: a resolution of a target package's entry that normal resolution
resolves to `<package>/dist/app.mjs` (or `.js`) redirects to
`<package>/src/app.tsx` when that source file exists on disk, and declines
(returns no redirect) when it does not — both at the `resolveEntryRedirect`
level and through the `resolveId` hook. -/
theorem claim9_entry_redirect (pre last ext : String) (t : ResolvedTarget)
    (opts : ResolvedOptions) (fsExists : String → Bool)
    (resolveFn : String → String → Option String) (importer : String)
    (state : ResolverState)
    (hopts : opts.targets = [t]) (her : t.entryRedirect = none)
    (hlast : packageLastPart t.package = last)
    (hext : ext = "mjs" ∨ ext = "js")
    (hpre : NoBS pre) (hpq : NoQ pre) (hlNB : NoBS last) (hlq : NoQ last) :
    resolveEntryRedirect (pre ++ "/" ++ last ++ "/dist/app." ++ ext) opts
        fsExists =
      (if fsExists (pre ++ "/" ++ last ++ "/src/app.tsx") then
        some (pre ++ "/" ++ last ++ "/src/app.tsx") else none) ∧
    (findImporterTarget importer opts = none → importer ≠ "" →
      jsStartsWith importer "\x00" = false →
      jsStartsWith t.package "\x00" = false →
      resolveFn t.package importer =
        some (pre ++ "/" ++ last ++ "/dist/app." ++ ext) →
      resolveId state opts resolveFn fsExists t.package importer =
        (if fsExists (pre ++ "/" ++ last ++ "/src/app.tsx") then
          some (pre ++ "/" ++ last ++ "/src/app.tsx") else none)) := by
  have hcat : pre ++ "/" ++ last ++ "/dist/app." ++ ext =
      pre ++ "/" ++ last ++ ("/dist/app." ++ ext) :=
    String.append_assoc (pre ++ "/" ++ last) "/dist/app." ext
  have hsuffix : "/dist/app." ++ ext = "/dist/app.mjs" ∨
      "/dist/app." ++ ext = "/dist/app.js" := by
    rcases hext with h | h <;> subst h
    · exact Or.inl (by decide)
    · exact Or.inr (by decide)
  have part1 : resolveEntryRedirect (pre ++ "/" ++ last ++ "/dist/app." ++ ext)
      opts fsExists =
      (if fsExists (pre ++ "/" ++ last ++ "/src/app.tsx") then
        some (pre ++ "/" ++ last ++ "/src/app.tsx") else none) := by
    rw [hcat]
    exact resolveEntryRedirect_default pre last ("/dist/app." ++ ext) t opts
      fsExists hopts her hlast hpre hpq hlNB hlq hsuffix
  refine ⟨part1, fun hfit hi hi0 hp0 hres => ?_⟩
  unfold resolveId
  rw [if_neg (by simp [hp0, hi, hi0])]
  rw [hfit, hopts]
  simp only [List.findSome?, if_neg (show ¬ (t.package ≠ t.package ∧
    ¬ jsStartsWith t.package (t.package ++ "/") = true) by simp), hres, part1]
  by_cases hfs : fsExists (pre ++ "/" ++ last ++ "/src/app.tsx") = true <;>
    simp [hfs]

/-- C9 witness: the default redirect at a concrete resolved id, both with
the source entry present and with it absent. -/
theorem claim9_witness :
    resolveId state9 opts9
      (fun _ _ => some ("/nm/@acme" ++ "/" ++ "dash" ++ "/dist/app." ++ "mjs"))
      (fun s => s = "/nm/@acme" ++ "/" ++ "dash" ++ "/src/app.tsx")
      t9.package "/app/main.tsx" =
      some ("/nm/@acme" ++ "/" ++ "dash" ++ "/src/app.tsx") := by
  have h := (claim9_entry_redirect "/nm/@acme" "dash" "mjs" t9 opts9
    (fun s => s = "/nm/@acme" ++ "/" ++ "dash" ++ "/src/app.tsx")
    (fun _ _ => some ("/nm/@acme" ++ "/" ++ "dash" ++ "/dist/app." ++ "mjs"))
    "/app/main.tsx" state9
    (by decide) (by decide) (by decide) (Or.inl rfl) (by decide) (by decide)
    (by decide) (by decide)).2
    (by decide) (by decide) (by decide) (by decide) rfl
  rw [h]
  rw [if_pos (by decide)]

/-- C10: only the flat mapping is filtered against the target file index —
at startup and on every watcher rebuild the namespaced mapping is installed
exactly as scanned; the startup warnings concern only flat keys, so a
namespaced-only key is never warned about; and a resolution request from
inside the owning target for a namespaced key that matches no target file
still returns the namespaced override path. -/
theorem claim10_flat_only_filtering :
    (∀ (opts : ResolvedOptions) (roots : FSRoots),
      (buildState opts roots).1.namespacedOverrides =
        (scanOverrides opts roots).2) ∧
    (∀ (state : ResolverState) (opts : ResolvedOptions) (roots : FSRoots)
      (g : ModuleGraph),
      (rebuildOnStructuralChange state opts roots g).newState.namespacedOverrides
        = (scanOverrides opts roots).2) ∧
    (∀ (opts : ResolvedOptions) (roots : FSRoots) (k : String),
      mapHas (scanOverrides opts roots).1 k = false →
      k ∉ (buildState opts roots).2.1) ∧
    (∀ (state : ResolverState) (opts : ResolvedOptions)
      (resolveFn : String → String → Option String)
      (fsExists : String → Bool) (source importer : String)
      (t : ResolvedTarget) (K p : String),
      jsStartsWith source "\x00" = false → importer ≠ "" →
      jsStartsWith importer "\x00" = false →
      findImporterTarget importer opts = some t →
      stripExtension (basenameOf source) = K → K ≠ "" → K ≠ "index" →
      mapHas state.targetFiles K = false →
      (mapGet state.namespacedOverrides t.package).bind
        (fun m => mapGet m K) = some p →
      resolveId state opts resolveFn fsExists source importer = some p) := by
  refine ⟨fun opts roots => rfl, fun state opts roots g => rfl, ?_, ?_⟩
  · intro opts roots k hk hmem
    have hflat := filterFlat_warned_sub (scanOverrides opts roots).1
      (scanAllTargets opts roots) k hmem
    rw [hk] at hflat
    exact absurd hflat (by decide)
  · intro state opts resolveFn fsExists source importer t K p hs0 hi hi0 ht
      hK hK0 hKi _ hns
    exact resolveId_ns_hit state opts resolveFn fsExists source importer
      t K p hs0 hi hi0 ht hK hK0 hKi hns

/-- C10 witness: a key absent from the scanned flat map is not warned
about, and a namespaced-only key (no matching target file) still resolves
to its namespaced override. -/
theorem claim10_witness :
    ("zzz" ∉ (buildState opts2 roots2).2.1) ∧
    resolveId stateNsOnly opts2 (fun _ _ => none) (fun _ => false) "./k"
      "/pkg/src/main.tsx" = some "/ov2/@a/b/k.tsx" :=
  ⟨claim10_flat_only_filtering.2.2.1 opts2 roots2 "zzz" (by decide),
    claim10_flat_only_filtering.2.2.2 stateNsOnly opts2 (fun _ _ => none)
      (fun _ => false) "./k" "/pkg/src/main.tsx" tNs "k" "/ov2/@a/b/k.tsx"
      (by decide) (by decide) (by decide) (by decide) (by decide) (by decide)
      (by decide) (by decide) (by decide)⟩

end Unlock
